import Mathlib

/-!
Verification development for the Web-Content-Q-A-Tool backend (`app.py`).

Strings are modelled as `List Char`.  Python's regular-expression character
classes are modelled for the code points the program manipulates:
`isPySpace` is the set matched by `\s` on `str` patterns (which is also the
set removed by `str.strip`), and `isWordChar` models `\w` on its ASCII
portion (Unicode letters outside ASCII are not modelled).
-/

/-- The code points matched by Python's `\s` (and stripped by `str.strip`). -/
def pyWsCodes : List Nat :=
  [9, 10, 11, 12, 13, 28, 29, 30, 31, 32, 133, 160, 0x1680,
   0x2000, 0x2001, 0x2002, 0x2003, 0x2004, 0x2005, 0x2006, 0x2007,
   0x2008, 0x2009, 0x200A, 0x2028, 0x2029, 0x205F, 0x3000]

def isPySpace (c : Char) : Bool := pyWsCodes.contains c.toNat

/-- Python `\w` (ASCII portion): letters, digits and underscore. -/
def isWordChar (c : Char) : Bool := c.isAlphanum || c == '_'

/-- Characters kept by the substitution `re.sub(r'[^\w\s.,!?-]', '', text)`
in `clean_text` (app.py line 36). -/
def keepChar (c : Char) : Bool :=
  isWordChar c || isPySpace c || ['.', ',', '!', '?', '-'].contains c

/-- Scanner for `re.sub(r'\s+', ' ', text)` (app.py line 34): each maximal
run of whitespace becomes a single space.  The flag records whether we are
inside a whitespace run whose replacement space was already emitted. -/
def collapseGo : Bool → List Char → List Char
  | _, [] => []
  | inRun, c :: cs =>
    if isPySpace c then
      if inRun then collapseGo true cs else ' ' :: collapseGo true cs
    else c :: collapseGo false cs

def collapseWs (l : List Char) : List Char := collapseGo false l

/-- Removal of the maximal trailing whitespace run (the right half of
Python's `str.strip`). -/
def rstripList : List Char → List Char
  | [] => []
  | c :: cs =>
    let r := rstripList cs
    if r.isEmpty && isPySpace c then [] else c :: r

/-- Python `str.strip()`: drop leading and trailing whitespace. -/
def pstrip (l : List Char) : List Char := rstripList (l.dropWhile isPySpace)

/-- Model of `clean_text` (app.py lines 32-37): collapse whitespace runs, drop the
characters outside `[\w\s.,!?-]`, then strip. -/
def clean_text (l : List Char) : List Char :=
  pstrip ((collapseWs l).filter keepChar)

example : clean_text "a @ b".data = "a  b".data := by decide

example : clean_text (clean_text "a @ b".data) = "a b".data := by decide

/-! ### Structural lemmas about the cleaning pipeline -/

/-- Head-of-list whitespace test. -/
def headWs : List Char → Bool
  | [] => false
  | c :: _ => isPySpace c

/-- No two adjacent characters are both whitespace. -/
def noAdjWs : List Char → Bool
  | [] => true
  | c :: cs => (!(isPySpace c && headWs cs)) && noAdjWs cs

/-- Every whitespace character is a plain space. -/
def allWsSp (l : List Char) : Bool := l.all (fun c => !isPySpace c || c == ' ')

theorem mem_collapseGo {c : Char} : ∀ {b : Bool} {l : List Char},
    c ∈ collapseGo b l → c = ' ' ∨ (c ∈ l ∧ isPySpace c = false) := by
  intro b l
  induction l generalizing b with
  | nil => intro h; simp [collapseGo] at h
  | cons x xs ih =>
    intro h
    simp only [collapseGo] at h
    by_cases hx : isPySpace x
    · simp [hx] at h
      cases b with
      | true =>
        simp at h
        rcases ih h with h' | ⟨h', hw⟩
        · exact Or.inl h'
        · exact Or.inr ⟨List.mem_cons_of_mem _ h', hw⟩
      | false =>
        simp at h
        rcases h with h | h
        · exact Or.inl h
        · rcases ih h with h' | ⟨h', hw⟩
          · exact Or.inl h'
          · exact Or.inr ⟨List.mem_cons_of_mem _ h', hw⟩
    · simp [hx] at h
      rcases h with h | h
      · exact Or.inr ⟨by simp [h], by simp [h, hx]⟩
      · rcases ih h with h' | ⟨h', hw⟩
        · exact Or.inl h'
        · exact Or.inr ⟨List.mem_cons_of_mem _ h', hw⟩

theorem mem_rstripList {c : Char} : ∀ {l : List Char}, c ∈ rstripList l → c ∈ l := by
  intro l
  induction l with
  | nil => intro h; simp [rstripList] at h
  | cons x xs ih =>
    intro h
    simp only [rstripList] at h
    by_cases hcond : (rstripList xs).isEmpty && isPySpace x
    · simp [hcond] at h
    · simp [hcond] at h
      rcases h with h | h
      · simp [h]
      · exact List.mem_cons_of_mem _ (ih h)

theorem mem_dropWhileWs {c : Char} {p : Char → Bool} :
    ∀ {l : List Char}, c ∈ l.dropWhile p → c ∈ l := by
  intro l
  induction l with
  | nil => intro h; simp [List.dropWhile] at h
  | cons x xs ih =>
    intro h
    simp only [List.dropWhile] at h
    by_cases hx : p x
    · simp [hx] at h; exact List.mem_cons_of_mem _ (ih h)
    · simp [hx] at h; exact List.mem_cons.mpr h

theorem mem_pstrip {c : Char} {l : List Char} (h : c ∈ pstrip l) : c ∈ l :=
  mem_dropWhileWs (mem_rstripList h)

theorem mem_clean_text {c : Char} {l : List Char} (h : c ∈ clean_text l) :
    keepChar c = true := by
  have h1 : c ∈ (collapseWs l).filter keepChar := mem_pstrip h
  exact (List.mem_filter.mp h1).2

theorem filter_keep_of_all {p : Char → Bool} {l : List Char}
    (h : ∀ c ∈ l, p c = true) : l.filter p = l :=
  List.filter_eq_self.mpr h

theorem collapseGo_true_false_or (l : List Char) :
    noAdjWs (collapseGo false l) = true ∧ noAdjWs (collapseGo true l) = true ∧
      headWs (collapseGo true l) = false ∧ headWs (collapseGo false l) = headWs l := by
  induction l with
  | nil => simp [collapseGo, noAdjWs, headWs]
  | cons x xs ih =>
    obtain ⟨ihF, ihT, ihHT, ihHF⟩ := ih
    by_cases hx : isPySpace x
    · refine ⟨?_, ?_, ?_, ?_⟩
      · simp [collapseGo, hx, noAdjWs, ihT, ihHT]
      · simp [collapseGo, hx, ihT]
      · simp [collapseGo, hx, ihHT]
      · have hsp : isPySpace ' ' = true := by decide
        simp [collapseGo, hx, headWs, hsp]
    · refine ⟨?_, ?_, ?_, ?_⟩
      · simp [collapseGo, hx, noAdjWs, ihF, ihHF]
      · simp [collapseGo, hx, noAdjWs, ihF, ihHF]
      · simp [collapseGo, hx, headWs]
      · simp [collapseGo, hx, headWs]

theorem allWsSp_collapseGo (b : Bool) (l : List Char) :
    allWsSp (collapseGo b l) = true := by
  rw [allWsSp, List.all_eq_true]
  intro c hc
  rcases mem_collapseGo hc with h | ⟨-, h⟩
  · subst h; decide
  · simp [h]

theorem noAdjWs_tail {c : Char} {cs : List Char} (h : noAdjWs (c :: cs) = true) :
    noAdjWs cs = true := by
  simp [noAdjWs] at h
  exact h.2

theorem noAdjWs_dropWhile {p : Char → Bool} :
    ∀ {l : List Char}, noAdjWs l = true → noAdjWs (l.dropWhile p) = true := by
  intro l
  induction l with
  | nil => intro h; simpa [List.dropWhile] using h
  | cons x xs ih =>
    intro h
    simp only [List.dropWhile]
    by_cases hx : p x
    · simp only [hx]; exact ih (noAdjWs_tail h)
    · simpa [hx] using h

theorem headWs_dropWhileWs :
    ∀ {l : List Char}, headWs (l.dropWhile isPySpace) = false := by
  intro l
  induction l with
  | nil => simp [List.dropWhile, headWs]
  | cons x xs ih =>
    simp only [List.dropWhile]
    by_cases hx : isPySpace x
    · simpa [hx] using ih
    · simp [hx, headWs]

theorem rstripList_shape (c : Char) (cs : List Char) :
    rstripList (c :: cs) = [] ∨ ∃ t, rstripList (c :: cs) = c :: t := by
  simp only [rstripList]
  by_cases h : (rstripList cs).isEmpty && isPySpace c
  · simp [h]
  · simp [h]

theorem headWs_rstripList {l : List Char} (h : rstripList l = [] → False) :
    headWs (rstripList l) = headWs l := by
  cases l with
  | nil => rfl
  | cons c cs =>
    rcases rstripList_shape c cs with h0 | ⟨t, ht⟩
    · exact absurd h0 h
    · simp [ht, headWs]

theorem noAdjWs_rstripList :
    ∀ {l : List Char}, noAdjWs l = true → noAdjWs (rstripList l) = true := by
  intro l
  induction l with
  | nil => intro h; simpa [rstripList] using h
  | cons x xs ih =>
    intro h
    have hxs : noAdjWs (rstripList xs) = true := ih (noAdjWs_tail h)
    simp only [rstripList]
    by_cases hcond : (rstripList xs).isEmpty && isPySpace x
    · simp [hcond, noAdjWs]
    · simp only [hcond, if_false, Bool.false_eq_true]
      simp only [noAdjWs, Bool.and_eq_true, Bool.not_eq_true']
      refine ⟨?_, hxs⟩
      by_cases hr : rstripList xs = []
      · simp [hr, headWs]
      · rw [headWs_rstripList (fun h0 => hr h0)]
        simp only [noAdjWs, Bool.and_eq_true, Bool.not_eq_true'] at h
        exact h.1

theorem allWsSp_of_mem {l l2 : List Char} (hsub : ∀ c ∈ l2, c ∈ l)
    (h : allWsSp l = true) : allWsSp l2 = true := by
  rw [allWsSp, List.all_eq_true] at h ⊢
  exact fun c hc => h c (hsub c hc)

theorem collapseGo_id : ∀ {l : List Char}, allWsSp l = true → noAdjWs l = true →
    collapseGo false l = l ∧ (headWs l = false → collapseGo true l = l) := by
  intro l
  induction l with
  | nil => intro _ _; simp [collapseGo]
  | cons x xs ih =>
    intro hall hadj
    have hallxs : allWsSp xs = true := by
      rw [allWsSp, List.all_eq_true] at hall ⊢
      exact fun c hc => hall c (List.mem_cons_of_mem _ hc)
    have hadjxs : noAdjWs xs = true := noAdjWs_tail hadj
    obtain ⟨ihF, ihT⟩ := ih hallxs hadjxs
    by_cases hx : isPySpace x
    · have hxsp : x = ' ' := by
        rw [allWsSp, List.all_eq_true] at hall
        have := hall x (List.mem_cons_self x xs)
        simp [hx] at this
        exact this
      have hhead : headWs xs = false := by
        simp only [noAdjWs, Bool.and_eq_true, Bool.not_eq_true'] at hadj
        simpa [hx] using hadj.1
      constructor
      · have hsp : isPySpace ' ' = true := by decide
        simp [collapseGo, hx, hsp, ihT hhead, hxsp]
      · intro hfalse
        simp [headWs, hx] at hfalse
    · constructor
      · simp [collapseGo, hx, ihF]
      · intro _
        simp [collapseGo, hx, ihF]

theorem dropWhileWs_id {l : List Char} (h : headWs l = false) :
    l.dropWhile isPySpace = l := by
  cases l with
  | nil => rfl
  | cons c cs =>
    simp only [headWs] at h
    simp [List.dropWhile, h]

theorem rstripList_idem : ∀ (l : List Char), rstripList (rstripList l) = rstripList l := by
  intro l
  induction l with
  | nil => rfl
  | cons x xs ih =>
    simp only [rstripList]
    by_cases hcond : (rstripList xs).isEmpty && isPySpace x
    · simp [hcond, rstripList]
    · simp only [hcond, if_false, Bool.false_eq_true, rstripList]
      rw [ih]
      simp [hcond]

theorem pstrip_idem (l : List Char) : pstrip (pstrip l) = pstrip l := by
  have hhead : headWs (pstrip l) = false := by
    rw [pstrip]
    by_cases hr : rstripList (l.dropWhile isPySpace) = []
    · simp [hr, headWs]
    · rw [headWs_rstripList (fun h0 => hr h0)]
      exact headWs_dropWhileWs
  rw [pstrip, dropWhileWs_id hhead, pstrip, rstripList_idem]

theorem clean_text_of_all_keep {l : List Char} (h : ∀ c ∈ l, keepChar c = true) :
    clean_text l = pstrip (collapseWs l) := by
  rw [clean_text]
  congr 1
  apply filter_keep_of_all
  intro c hc
  rcases mem_collapseGo hc with h' | ⟨h', -⟩
  · subst h'; decide
  · exact h c h'

theorem clean_text_clean_text_eq (x : List Char) :
    clean_text (clean_text x) = pstrip (collapseWs (clean_text x)) :=
  clean_text_of_all_keep (fun _ hc => mem_clean_text hc)

theorem clean_text_triple (x : List Char) :
    clean_text (clean_text (clean_text x)) = clean_text (clean_text x) := by
  set y1 := clean_text x with hy1
  set z := collapseWs y1 with hz
  have hy2 : clean_text y1 = pstrip z := clean_text_clean_text_eq x
  set y2 := pstrip z with hy2def
  rw [hy1] at hy2
  rw [hy2]
  have hzAdj : noAdjWs z = true := (collapseGo_true_false_or y1).1
  have hzSp : allWsSp z = true := allWsSp_collapseGo false y1
  have hAdj : noAdjWs y2 = true := by
    rw [hy2def, pstrip]
    exact noAdjWs_rstripList (noAdjWs_dropWhile hzAdj)
  have hSp : allWsSp y2 = true := by
    apply allWsSp_of_mem (l := z) _ hzSp
    intro c hc
    exact mem_pstrip hc
  have hHead : headWs y2 = false := by
    rw [hy2def, pstrip]
    by_cases hr : rstripList (z.dropWhile isPySpace) = []
    · simp [hr, headWs]
    · rw [headWs_rstripList (fun h0 => hr h0)]
      exact headWs_dropWhileWs
  have hKeep : ∀ c ∈ y2, keepChar c = true := by
    intro c hc
    have hcz : c ∈ z := mem_pstrip hc
    rcases mem_collapseGo hcz with h' | ⟨h', -⟩
    · subst h'; decide
    · exact mem_clean_text h'
  rw [clean_text_of_all_keep hKeep]
  have hcid : collapseWs y2 = y2 := (collapseGo_id hSp hAdj).1
  rw [hcid, hy2def, pstrip_idem]

/-!
### HTML document model

A parsed document (the BeautifulSoup tree) is modelled as a forest of nodes
in first-child/next-sibling form: an `Html` value denotes a *sequence* of
sibling nodes.  `textCons s r` is a text node with following siblings `r`;
`elemCons tag attrs children r` is an element.  Attribute values are plain
strings (a `class` attribute holds the whole attribute text; matching it as
one string is equivalent to BeautifulSoup matching each space-separated
class token, because the patterns involved contain no spaces).
-/

inductive Html where
  | nil : Html
  | textCons : List Char → Html → Html
  | elemCons : List Char → List (List Char × List Char) → Html → Html → Html
deriving DecidableEq, Repr

/-- An element located in a document: its tag, attributes and child forest. -/
structure TagData where
  tag : List Char
  attrs : List (List Char × List Char)
  children : Html
deriving DecidableEq, Repr

/-- The element kinds removed by `extract_main_content` (app.py line 41). -/
def unwantedTags : List (List Char) :=
  ["header".data, "footer".data, "nav".data, "script".data,
   "style".data, "iframe".data, "form".data]

/-- Model of `element.decompose()` applied to every unwanted element
(app.py lines 41-42): the whole subtree of each such element is discarded. -/
def pruneF : Html → Html
  | .nil => .nil
  | .textCons s r => .textCons s (pruneF r)
  | .elemCons t a c r =>
    if unwantedTags.contains t then pruneF r
    else .elemCons t a (pruneF c) (pruneF r)

/-- The text nodes of a forest, in document (preorder) order. -/
def textNodes : Html → List (List Char)
  | .nil => []
  | .textCons s r => s :: textNodes r
  | .elemCons _ _ c r => textNodes c ++ textNodes r

/-- Model of `soup.find(...)`: the first element, in document order, satisfying the
predicate on tag name and attributes. -/
def findE (p : List Char → List (List Char × List Char) → Bool) : Html → Option TagData
  | .nil => none
  | .textCons _ r => findE p r
  | .elemCons t a c r =>
    if p t a then some ⟨t, a, c⟩
    else match findE p c with
      | some x => some x
      | none => findE p r

/-- All elements of a forest in document (preorder) order. -/
def elemsPre : Html → List TagData
  | .nil => []
  | .textCons _ r => elemsPre r
  | .elemCons t a c r => ⟨t, a, c⟩ :: (elemsPre c ++ elemsPre r)

/-- Substring test: does `needle` occur contiguously in the second list? -/
def containsSub (needle : List Char) : List Char → Bool
  | [] => needle.isEmpty
  | c :: cs => needle.isPrefixOf (c :: cs) || containsSub needle cs

/-- Case-insensitive search of `re.compile(r'content|main|article', re.I)`
in a class attribute value (app.py line 45). -/
def classMatches (v : List Char) : Bool :=
  let lv := v.map Char.toLower
  containsSub "content".data lv || containsSub "main".data lv ||
    containsSub "article".data lv

/-- The predicate of `soup.find('div', {'class': re.compile(...)})`:
a `div` element whose class attribute matches. -/
def isClassyDiv (t : List Char) (a : List (List Char × List Char)) : Bool :=
  t == "div".data &&
    (match a.lookup "class".data with
     | some v => classMatches v
     | none => false)

/-- Model of `get_text(separator=' ', strip=True)`: each text node is stripped, blank
results are skipped, and the rest are joined by a single space. -/
def textFragments (region : Html) : List (List Char) :=
  ((textNodes region).map pstrip).filter (fun s => !s.isEmpty)

def getTextSep (region : Html) : List Char :=
  List.intercalate [' '] (textFragments region)

/-- The `main or article or classed-div` selection (app.py line 45), applied
to the already-pruned soup. -/
def selectMain (doc : Html) : Option TagData :=
  match findE (fun t _ => t == "main".data) doc with
  | some x => some x
  | none =>
    match findE (fun t _ => t == "article".data) doc with
    | some x => some x
    | none => findE isClassyDiv doc

/-- Model of `extract_main_content` (app.py lines 39-49): decompose the unwanted
elements, select a main-content region, and take its text (or the whole
remaining document's text). -/
def extract_main_content (doc : Html) : List Char :=
  let pruned := pruneF doc
  match selectMain pruned with
  | some td => getTextSep td.children
  | none => getTextSep pruned

/-- The list of stripped text fragments that `extract_main_content` joins. -/
def extractFragments (doc : Html) : List (List Char) :=
  match selectMain (pruneF doc) with
  | some td => textFragments td.children
  | none => textFragments (pruneF doc)

theorem extract_main_content_eq_fragments (doc : Html) :
    extract_main_content doc = List.intercalate [' '] (extractFragments doc) := by
  rw [extract_main_content, extractFragments]
  cases selectMain (pruneF doc) <;> rfl

/-- BeautifulSoup `tag.string`: the single text child of a tag, descending
through unique element children; `none` otherwise.  Modelled on the child
forest of the tag. -/
def stringOfForest : Html → Option (List Char)
  | .textCons s .nil => some s
  | .elemCons _ _ c .nil => stringOfForest c
  | _ => none

/-- Model of `soup.title.string if soup.title else ''` (app.py line 62).  `none`
models Python's `None` (title tag present, no unique string child). -/
def titleOf (doc : Html) : Option (List Char) :=
  match findE (fun t _ => t == "title".data) doc with
  | none => some []
  | some td => stringOfForest td.children

/-- Model of `soup.find_all('a', href=True)` projected to the href values, in
document order (app.py line 71).  In BeautifulSoup, `href=True` matches any
anchor whose `href` attribute is present — "True matches any non-None
value" — so an empty `href=""` is included. -/
def anchorHrefs : Html → List (List Char)
  | .nil => []
  | .textCons _ r => anchorHrefs r
  | .elemCons t a c r =>
    (if t == "a".data then
       match a.lookup "href".data with
       | some v => [v]
       | none => []
     else []) ++ anchorHrefs c ++ anchorHrefs r

/-!
### urljoin model

`urllib.parse.urljoin` is a library boundary; it is modelled for absolute
bases of the form `scheme://host/path...` and the reference forms that occur
here: empty references, references with their own scheme, network-path
(`//...`), root-relative (`/...`), fragment-only, query-only, and plain
relative paths.
-/

def isSchemeChar (c : Char) : Bool := c.isAlphanum || ['+', '-', '.'].contains c

def hasScheme (u : List Char) : Bool :=
  let s := u.takeWhile (fun c => c != ':')
  !s.isEmpty && decide (s.length < u.length) &&
    (match s with
     | c :: _ => c.isAlpha
     | [] => false) &&
    s.all isSchemeChar

def schemeOf (u : List Char) : List Char := u.takeWhile (fun c => c != ':')

def afterScheme (u : List Char) : List Char :=
  (u.dropWhile (fun c => c != ':')).drop 1

def netlocOf (u : List Char) : List Char :=
  ((afterScheme u).drop 2).takeWhile (fun c => c != '/' && c != '?' && c != '#')

def schemeHost (u : List Char) : List Char :=
  schemeOf u ++ "://".data ++ netlocOf u

def pathOnly (u : List Char) : List Char :=
  (((afterScheme u).drop 2).dropWhile (fun c => c != '/' && c != '?' && c != '#')).takeWhile
    (fun c => c != '?' && c != '#')

/-- The directory part of the base path (up to and including the last `/`). -/
def dirOf (u : List Char) : List Char :=
  let p := pathOnly u
  if p.contains '/' then (p.reverse.dropWhile (fun c => c != '/')).reverse
  else "/".data

def urljoin (base ref : List Char) : List Char :=
  if ref.isEmpty then base
  else if hasScheme ref then ref
  else if ref.take 2 == "//".data then schemeOf base ++ ":".data ++ ref
  else if ref.head? == some '/' then schemeHost base ++ ref
  else if ref.head? == some '#' then base.takeWhile (fun c => c != '#') ++ ref
  else if ref.head? == some '?' then
    base.takeWhile (fun c => c != '?' && c != '#') ++ ref
  else schemeHost base ++ dirOf base ++ ref

example : urljoin "https://a.com/x".data "/about".data = "https://a.com/about".data := by
  decide

example : urljoin "https://a.com/x".data "h1".data = "https://a.com/h1".data := by
  decide

example : urljoin "https://a.com/x".data [] = "https://a.com/x".data := by decide

/-- The link list built by `scrape_url` (app.py lines 71, 78): hrefs of the
(already pruned, because `extract_main_content` decomposes the soup in
place) document's anchors, resolved against the page URL, first 5 kept. -/
def scrapeLinks (url : List Char) (doc : Html) : List (List Char) :=
  (((anchorHrefs (pruneF doc)).map (urljoin url)).take 5)

/-- The per-URL record produced by `scrape_url` (app.py lines 75-79). -/
structure PageRecord where
  title : Option (List Char)
  content : List Char
  links : List (List Char)
deriving DecidableEq, Repr

/-- Model of `scrape_url` (app.py lines 51-82).  The network fetch plus HTML parsing
is the oracle `net`; an exception anywhere in the `try` block yields the
wrapped error record (line 82).  Note the title is read from the soup
before `extract_main_content` prunes it. -/
def scrape_url (net : List Char → Except (List Char) Html) (url : List Char) :
    Except (List Char) PageRecord :=
  match net url with
  | .error e => .error ("Error scraping ".data ++ url ++ ": ".data ++ e)
  | .ok doc =>
    .ok { title := titleOf doc
          content := clean_text (extract_main_content doc)
          links := scrapeLinks url doc }

/-!
### `/fetch-content` (app.py lines 92-119)

The handler is modelled as a function of the network oracle.  Besides the
response it returns the trace of URLs actually passed to `scrape_url`, in
order, so that "no further URL is processed" is expressible.
-/

inductive FetchResp where
  | ok (content : List (List Char × PageRecord))
  | err (code : Nat) (msg : List Char)
deriving DecidableEq, Repr

/-- Python `dict` insertion: an existing key keeps its position and gets the
new value; a new key is appended. -/
def dictInsert (m : List (List Char × PageRecord)) (k : List Char) (v : PageRecord) :
    List (List Char × PageRecord) :=
  if m.any (fun p => p.1 == k) then m.map (fun p => if p.1 == k then (k, v) else p)
  else m ++ [(k, v)]

/-- The `for url in urls` loop of `fetch_content` (app.py lines 105-112). -/
def fetchLoop (net : List Char → Except (List Char) Html) :
    List (List Char) → List (List Char × PageRecord) →
    FetchResp × List (List Char)
  | [], acc => (.ok acc, [])
  | u :: rest, acc =>
    if (pstrip u).isEmpty then fetchLoop net rest acc
    else
      match scrape_url net u with
      | .error e => (.err 400 e, [u])
      | .ok r =>
        let p := fetchLoop net rest (dictInsert acc u r)
        (p.1, u :: p.2)

/-- Model of `fetch_content` (app.py lines 92-119): empty-list validation, then the
sequential fail-fast loop. -/
def fetch_content (net : List Char → Except (List Char) Html)
    (urls : List (List Char)) : FetchResp × List (List Char) :=
  if urls.isEmpty then (.err 400 "No URLs provided".data, [])
  else fetchLoop net urls []

/-!
### `/ask-question` (app.py lines 121-209)
-/

/-- A record of the request's content map, keeping the two fields the
handler reads; `none` models an absent key (`'title' in data` /
`'content' in data`). -/
structure QRec where
  title : Option (List Char)
  content : Option (List Char)
deriving DecidableEq, Repr

/-- The stray text that the f-string embeds after the truncated content
(app.py line 149): in Python, `#` inside an f-string literal is literal
text, not a comment. -/
def strayText : List Char := "  # Limit content length per URL".data

/-- One context block (the f-string of app.py lines 145-150). -/
def blockStr (url title content : List Char) : List Char :=
  "\nSource: ".data ++ url ++ "\nTitle: ".data ++ title ++ "\nContent:\n".data ++
    content.take 1500 ++ strayText ++ "\n                ".data

/-- The per-entry block: only records having both `title` and `content`
contribute (app.py line 144). -/
def mkBlock (url : List Char) (r : QRec) : Option (List Char) :=
  match r.title, r.content with
  | some t, some c => some (blockStr url t c)
  | _, _ => none

/-- Model of `context_parts` accumulated by the `for url, data in content.items()`
loop (app.py lines 142-150). -/
def contextParts (content : List (List Char × QRec)) : List (List Char) :=
  content.foldl
    (fun acc p =>
      match mkBlock p.1 p.2 with
      | some b => acc ++ [b]
      | none => acc)
    []

def sepStr : List Char := "\n\n---\n\n".data

/-- Model of `context = "\n\n---\n\n".join(context_parts)` (app.py line 152). -/
def buildContext (content : List (List Char × QRec)) : List Char :=
  List.intercalate sepStr (contextParts content)

def promptHead : List Char :=
  ("You are a knowledgeable and thorough research assistant. " ++
   "Analyze the provided content and answer the question comprehensively." ++
   "\n\nQuestion: ").data

def promptMid : List Char := "\n\nReference Content:\n".data

def promptTail : List Char :=
  ("\n\nPlease provide a detailed response following this structure:\n\n" ++
   "1. Direct Answer:\n" ++
   "   - Begin with a clear, direct answer to the question\n" ++
   "   - Highlight key points and main findings\n\n" ++
   "2. Supporting Evidence:\n" ++
   "   - Quote relevant passages from the source material using quotation marks\n" ++
   "   - Cite the specific source URL for each quote\n" ++
   "   - Explain how each piece of evidence supports the answer\n\n" ++
   "3. Analysis & Context:\n" ++
   "   - Provide additional context or background information\n" ++
   "   - Explain any important relationships or implications\n" ++
   "   - Address any potential limitations or caveats\n\n" ++
   "4. Summary:\n" ++
   "   - Conclude with a brief summary of the key points\n" ++
   "   - Highlight any remaining uncertainties or areas needing clarification\n\n" ++
   "If the provided content doesn\u0027t contain sufficient information to answer the question:\n" ++
   "- Clearly state what information is missing\n" ++
   "- Explain what additional information would be needed\n" ++
   "- Note any partial insights that can be drawn from the available content\n\n" ++
   "Format your response using clear headings and bullet points for readability.").data

/-- The prompt assembled by `ask_question` (app.py lines 154-186). -/
def buildPrompt (content : List (List Char × QRec)) (question : List Char) : List Char :=
  promptHead ++ question ++ promptMid ++ buildContext content ++ promptTail

/-!
### Answer post-processing (app.py lines 191-200)

Each `re.sub` is modelled as a left-to-right scanner with Python regex
semantics (leftmost match, greedy with backtracking, `re.MULTILINE`
anchoring for `^`).  The scanners take a fuel argument so that they are
structurally recursive; fuel `length + 1` is always sufficient because each
step consumes at least one character.
-/

/-- Match attempt for `^(\d+)\.\s+([^\n]+)` at a line start: returns the
digit group, the text group and the rest of the input.  The backtracking
case arises when the greedy `\s+` reaches a newline or the end: `\s+` then
gives back characters until `[^\n]+` can start on a non-newline whitespace
character. -/
def tryHead (l : List Char) : Option (List Char × List Char × List Char) :=
  let num := l.takeWhile Char.isDigit
  if num.isEmpty then none
  else
    match l.drop num.length with
    | '.' :: afterDot =>
      let ws := afterDot.takeWhile isPySpace
      if ws.isEmpty then none
      else
        let afterWs := afterDot.drop ws.length
        if afterWs.head? != some '\n' && !afterWs.isEmpty then
          let text := afterWs.takeWhile (fun c => c != '\n')
          some (num, text, afterWs.drop text.length)
        else
          match (List.range ws.length).reverse.find?
              (fun i => decide (1 ≤ i) && (ws.get? i != some '\n')) with
          | some i =>
            let tail := ws.drop i
            let text := tail.takeWhile (fun c => c != '\n')
            some (num, text, tail.drop text.length ++ afterWs)
          | none => none
    | _ => none

/-- Model of `re.sub(r'^(\d+)\.\s+([^\n]+)', r'<h3>\1. \2</h3>', ..., re.MULTILINE)`
(app.py line 194). -/
def hdrGo : Nat → Bool → List Char → List Char
  | 0, _, l => l
  | _ + 1, _, [] => []
  | fuel + 1, atStart, c :: cs =>
    if atStart then
      match tryHead (c :: cs) with
      | some (num, text, rest) =>
        "<h3>".data ++ num ++ ". ".data ++ text ++ "</h3>".data ++
          hdrGo fuel false rest
      | none => c :: hdrGo fuel (c == '\n') cs
    else c :: hdrGo fuel (c == '\n') cs

def hdrSub (l : List Char) : List Char := hdrGo (l.length + 1) true l

/-- Model of `answer.replace("\n\n", "<br><br>")` (app.py line 196): left-to-right,
non-overlapping. -/
def brSub : List Char → List Char
  | '\n' :: '\n' :: rest => "<br><br>".data ++ brSub rest
  | c :: rest => c :: brSub rest
  | [] => []

/-- Model of `re.sub(r'"([^"]*)"', r'<b>"\1"</b>', answer)` (app.py line 198). -/
def boldGo : Nat → List Char → List Char
  | 0, l => l
  | _ + 1, [] => []
  | fuel + 1, c :: cs =>
    if c == '"' then
      let inner := cs.takeWhile (fun d => d != '"')
      match cs.drop inner.length with
      | '"' :: rest =>
        "<b>\"".data ++ inner ++ "\"</b>".data ++ boldGo fuel rest
      | _ => c :: boldGo fuel cs
    else c :: boldGo fuel cs

def boldSub (l : List Char) : List Char := boldGo (l.length + 1) l

/-- The replacement text of app.py line 200.  The source file holds the
three characters U+00E2, U+20AC, U+00A2 (the UTF-8 bytes of the bullet
U+2022 decoded as cp1252, i.e. mojibake), then a space. -/
def bulletRepl : List Char := ['â', '€', '¢', ' ']

/-- Model of `re.sub(r'^-\s+', 'â€¢ ', answer, flags=re.MULTILINE)` (app.py
line 200).  After a match the next position is at a line start exactly when
the last whitespace character consumed was a newline. -/
def bulletGo : Nat → Bool → List Char → List Char
  | 0, _, l => l
  | _ + 1, _, [] => []
  | fuel + 1, atStart, c :: cs =>
    if atStart && c == '-' && headWs cs then
      let run := cs.takeWhile isPySpace
      bulletRepl ++ bulletGo fuel (run.getLast? == some '\n') (cs.drop run.length)
    else c :: bulletGo fuel (c == '\n') cs

def bulletSub (l : List Char) : List Char := bulletGo (l.length + 1) true l

/-- The four rewrites of app.py lines 194-200, in source order. -/
def postProcess (answer : List Char) : List Char :=
  bulletSub (boldSub (brSub (hdrSub answer)))

example :
    postProcess ("1. Hello\n\nWorld says \"hi\" and\n- a bullet").data =
      ("<h3>1. Hello</h3><br><br>World says <b>\"hi\"</b> and\n" ++
        "â€¢ a bullet").data := by
  decide

inductive AskResp where
  | answer (a : List Char)
  | err (code : Nat) (msg : List Char)
deriving DecidableEq, Repr

/-- Model of `ask_question` (app.py lines 121-209), as a function of the model
oracle (`model.generate_content(...).text`, `none` for a falsy response).
The second component records whether the model API was invoked. -/
def ask_question (model : List Char → Option (List Char))
    (content : List (List Char × QRec)) (question : List Char) :
    AskResp × Bool :=
  let q := pstrip question
  if content.isEmpty then (.err 400 "No content provided".data, false)
  else if q.isEmpty then (.err 400 "No question provided".data, false)
  else
    match model (buildPrompt content q) with
    | some t =>
      if t.isEmpty then (.err 500 "No response generated".data, true)
      else (.answer (postProcess (pstrip t)), true)
    | none => (.err 500 "No response generated".data, true)

/-! ## Claim C2: idempotence of the cleaning step -/

/-- C2 (counterexample): `clean_text` is not idempotent.  On `"a @ b"` the
removal of `@` merges the two whitespace runs into `"a  b"`, which a second
application collapses to `"a b"`. -/
theorem c2_clean_text_not_idempotent :
    clean_text (clean_text "a @ b".data) ≠ clean_text "a @ b".data := by
  decide

/-- C2 (amended): the cleaning step is idempotent from the second
application on: for every string `x`,
`clean(clean(clean(x))) = clean(clean(x))`; equivalently, every output of
`clean ∘ clean` is a fixed point of `clean`. -/
theorem c2_clean_text_idempotent_from_second (x : List Char) :
    clean_text (clean_text (clean_text x)) = clean_text (clean_text x) :=
  clean_text_triple x

/-! ## Claim C6: removed element kinds never contribute -/

/-- Text nodes that are not inside any unwanted element, in document
order.  This follows the spec's wording ("extraction never includes text
from removed element kinds"). -/
def keptTexts : Html → List (List Char)
  | .nil => []
  | .textCons s r => s :: keptTexts r
  | .elemCons t _ c r =>
    (if unwantedTags.contains t then [] else keptTexts c) ++ keptTexts r

/-- Anchor hrefs not inside any unwanted element, in document order. -/
def keptAnchors : Html → List (List Char)
  | .nil => []
  | .textCons _ r => keptAnchors r
  | .elemCons t a c r =>
    if unwantedTags.contains t then keptAnchors r
    else
      (if t == "a".data then
         match a.lookup "href".data with
         | some v => [v]
         | none => []
       else []) ++ keptAnchors c ++ keptAnchors r

theorem textNodes_pruneF : ∀ f : Html, textNodes (pruneF f) = keptTexts f := by
  intro f
  induction f with
  | nil => rfl
  | textCons s r ih => simp [pruneF, textNodes, keptTexts, ih]
  | elemCons t a c r ihc ihr =>
    by_cases h : t ∈ unwantedTags
    · simp [pruneF, keptTexts, h, ihr]
    · simp [pruneF, textNodes, keptTexts, h, ihc, ihr]

theorem anchorHrefs_pruneF : ∀ f : Html, anchorHrefs (pruneF f) = keptAnchors f := by
  intro f
  induction f with
  | nil => rfl
  | textCons s r ih => simp [pruneF, anchorHrefs, keptAnchors, ih]
  | elemCons t a c r ihc ihr =>
    by_cases h : t ∈ unwantedTags
    · simp [pruneF, anchorHrefs, keptAnchors, h, ihr]
    · simp [pruneF, anchorHrefs, keptAnchors, h, ihc, ihr]

theorem mem_textNodes_findE {p : List Char → List (List Char × List Char) → Bool} :
    ∀ {f : Html} {td : TagData}, findE p f = some td →
      ∀ {s : List Char}, s ∈ textNodes td.children → s ∈ textNodes f := by
  intro f
  induction f with
  | nil => intro td h; simp [findE] at h
  | textCons x r ih =>
    intro td h s hs
    simp only [findE] at h
    simpa [textNodes] using Or.inr (ih h hs)
  | elemCons t a c r ihc ihr =>
    intro td h s hs
    simp only [findE] at h
    by_cases hp : p t a
    · simp [hp] at h
      subst h
      simp only [textNodes]
      exact List.mem_append_left _ hs
    · simp [hp] at h
      simp only [textNodes]
      cases hfc : findE p c with
      | some x =>
        rw [hfc] at h
        cases h
        exact List.mem_append_left _ (ihc hfc hs)
      | none =>
        rw [hfc] at h
        exact List.mem_append_right _ (ihr h hs)

theorem selectMain_findE {doc : Html} {td : TagData} (h : selectMain doc = some td) :
    (∃ p, findE p doc = some td) := by
  rw [selectMain] at h
  cases h1 : findE (fun t _ => t == "main".data) doc with
  | some x => rw [h1] at h; exact ⟨_, h1.trans h⟩
  | none =>
    rw [h1] at h
    cases h2 : findE (fun t _ => t == "article".data) doc with
    | some x => rw [h2] at h; exact ⟨_, h2.trans h⟩
    | none =>
      rw [h2] at h
      exact ⟨_, h⟩

theorem extractFragments_sub {doc : Html} {s : List Char}
    (h : s ∈ extractFragments doc) :
    ∃ t, t ∈ keptTexts doc ∧ s = pstrip t := by
  rw [extractFragments] at h
  have key : ∀ region : Html, s ∈ textFragments region →
      (∀ x, x ∈ textNodes region → x ∈ textNodes (pruneF doc)) →
      ∃ t, t ∈ keptTexts doc ∧ s = pstrip t := by
    intro region hmem hsub
    rw [textFragments] at hmem
    have h1 := List.mem_filter.mp hmem
    obtain ⟨t, ht, hts⟩ := List.mem_map.mp h1.1
    refine ⟨t, ?_, hts.symm⟩
    rw [← textNodes_pruneF]
    exact hsub t ht
  cases hsel : selectMain (pruneF doc) with
  | some td =>
    rw [hsel] at h
    obtain ⟨p, hp⟩ := selectMain_findE hsel
    exact key td.children h (fun x hx => mem_textNodes_findE hp hx)
  | none =>
    rw [hsel] at h
    exact key (pruneF doc) h (fun x hx => hx)

/-- C6: elements of kind header/footer/nav/script/style/iframe/form are
removed before extraction: every text fragment that
`extract_main_content` joins is the strip of a text node lying outside all
unwanted subtrees, the pruned document's text nodes and anchor hrefs are
exactly those outside unwanted subtrees, and the links of `scrape_url` are
computed from the latter. -/
theorem c6_removed_elements_never_contribute (doc : Html) (s : List Char)
    (h : s ∈ extractFragments doc) :
    (∃ t, t ∈ keptTexts doc ∧ s = pstrip t) ∧
      textNodes (pruneF doc) = keptTexts doc ∧
      anchorHrefs (pruneF doc) = keptAnchors doc ∧
      ∀ url, scrapeLinks url doc = ((keptAnchors doc).map (urljoin url)).take 5 := by
  refine ⟨extractFragments_sub h, textNodes_pruneF doc, anchorHrefs_pruneF doc, ?_⟩
  intro url
  rw [scrapeLinks, anchorHrefs_pruneF]

/-- C6 witness: a concrete document with one fragment. -/
theorem c6_removed_elements_witness :
    "X".data ∈ extractFragments
        (Html.elemCons "div".data [] (Html.textCons "X".data Html.nil) Html.nil) ∧
      (∃ t, t ∈ keptTexts
          (Html.elemCons "div".data [] (Html.textCons "X".data Html.nil) Html.nil) ∧
          "X".data = pstrip t) :=
  ⟨by decide,
   (c6_removed_elements_never_contribute
      (Html.elemCons "div".data [] (Html.textCons "X".data Html.nil) Html.nil)
      "X".data (by decide)).1⟩

/-! ## Claim C3: main-content selection priority -/

theorem find?_append_cases {α : Type} (q : α → Bool) : ∀ (l1 l2 : List α),
    (l1 ++ l2).find? q =
      match l1.find? q with
      | some x => some x
      | none => l2.find? q := by
  intro l1 l2
  induction l1 with
  | nil => simp
  | cons x xs ih =>
    by_cases hq : q x
    · simp [List.find?_cons_of_pos _ hq, hq]
    · rw [List.cons_append, List.find?_cons_of_neg _ hq, List.find?_cons_of_neg _ hq, ih]

theorem findE_eq_find? (p : List Char → List (List Char × List Char) → Bool) :
    ∀ f : Html, findE p f = (elemsPre f).find? (fun td => p td.tag td.attrs) := by
  intro f
  induction f with
  | nil => rfl
  | textCons s r ih => simp [findE, elemsPre, ih]
  | elemCons t a c r ihc ihr =>
    simp only [findE, elemsPre]
    by_cases hp : p t a
    · simp [hp, List.find?_cons_of_pos]
    · rw [if_neg hp, List.find?_cons_of_neg _ (by simpa using hp),
        find?_append_cases, ← ihc, ← ihr]
      rcases hfc : findE p c with _ | x <;> simp [hfc]

def isMainTag (td : TagData) : Bool := td.tag == "main".data

def isArticleTag (td : TagData) : Bool := td.tag == "article".data

def isClassyDivTag (td : TagData) : Bool := isClassyDiv td.tag td.attrs

theorem selectMain_eq_find? (doc : Html) :
    selectMain doc =
      match (elemsPre doc).find? isMainTag with
      | some x => some x
      | none =>
        match (elemsPre doc).find? isArticleTag with
        | some x => some x
        | none => (elemsPre doc).find? isClassyDivTag := by
  simp only [selectMain]
  rw [findE_eq_find?, findE_eq_find?, findE_eq_find?]
  rfl

/-- C3 (amended): selection priority with clause (3) restricted to `div`
elements, as the code does: (1) the first `<main>` element if one exists;
(2) else the first `<article>`; (3) else the first `div` whose class
attribute matches `content|main|article` case-insensitively; (4) else the
whole pruned document.  In particular a document holding both `<main>` and
`<article>` yields the first `<main>`'s text. -/
theorem c3_selection_priority (doc : Html) :
    (∀ td, (elemsPre (pruneF doc)).find? isMainTag = some td →
        extract_main_content doc = getTextSep td.children) ∧
    (∀ td, (elemsPre (pruneF doc)).find? isMainTag = none →
        (elemsPre (pruneF doc)).find? isArticleTag = some td →
        extract_main_content doc = getTextSep td.children) ∧
    (∀ td, (elemsPre (pruneF doc)).find? isMainTag = none →
        (elemsPre (pruneF doc)).find? isArticleTag = none →
        (elemsPre (pruneF doc)).find? isClassyDivTag = some td →
        extract_main_content doc = getTextSep td.children) ∧
    ((elemsPre (pruneF doc)).find? isMainTag = none →
        (elemsPre (pruneF doc)).find? isArticleTag = none →
        (elemsPre (pruneF doc)).find? isClassyDivTag = none →
        extract_main_content doc = getTextSep (pruneF doc)) ∧
    (∀ tdm tda, (elemsPre (pruneF doc)).find? isMainTag = some tdm →
        (elemsPre (pruneF doc)).find? isArticleTag = some tda →
        extract_main_content doc = getTextSep tdm.children) := by
  refine ⟨?_, ?_, ?_, ?_, ?_⟩
  · intro td h
    have hsel : selectMain (pruneF doc) = some td := by
      rw [selectMain_eq_find? (pruneF doc), h]
    simp only [extract_main_content]
    rw [hsel]
  · intro td h0 h
    have hsel : selectMain (pruneF doc) = some td := by
      rw [selectMain_eq_find? (pruneF doc), h0, h]
    simp only [extract_main_content]
    rw [hsel]
  · intro td h0 h1 h
    have hsel : selectMain (pruneF doc) = some td := by
      rw [selectMain_eq_find? (pruneF doc), h0, h1, h]
    simp only [extract_main_content]
    rw [hsel]
  · intro h0 h1 h2
    have hsel : selectMain (pruneF doc) = none := by
      rw [selectMain_eq_find? (pruneF doc), h0, h1, h2]
    simp only [extract_main_content]
    rw [hsel]
  · intro tdm tda h hart
    have hsel : selectMain (pruneF doc) = some tdm := by
      rw [selectMain_eq_find? (pruneF doc), h]
    simp only [extract_main_content]
    rw [hsel]

/-- A document with both `<main>` and `<article>` for the witness. -/
def docMainArticle : Html :=
  Html.elemCons "main".data [] (Html.textCons "M".data Html.nil)
    (Html.elemCons "article".data [] (Html.textCons "A".data Html.nil) Html.nil)

/-- C3 witness: on `docMainArticle` the first conjunct applies and yields
the `<main>` element's text. -/
theorem c3_selection_priority_witness :
    (elemsPre (pruneF docMainArticle)).find? isMainTag =
        some ⟨"main".data, [], Html.textCons "M".data Html.nil⟩ ∧
      extract_main_content docMainArticle =
        getTextSep (Html.textCons "M".data Html.nil) :=
  ⟨by decide,
   (c3_selection_priority docMainArticle).1
     ⟨"main".data, [], Html.textCons "M".data Html.nil⟩ (by decide)⟩

/-- Definition following the claim's clause (3) verbatim: the first element
OF ANY KIND whose class attribute matches `content|main|article`
case-insensitively. -/
def claimClassSelect (doc : Html) : Option TagData :=
  (elemsPre doc).find?
    (fun td =>
      match td.attrs.lookup "class".data with
      | some v => classMatches v
      | none => false)

/-- A document with a classed `<span>` and no main/article/div. -/
def docClassySpan : Html :=
  Html.elemCons "span".data [("class".data, "content".data)]
    (Html.textCons "X".data Html.nil)
    (Html.elemCons "p".data [] (Html.textCons "Y".data Html.nil) Html.nil)

/-- C3 (counterexample): the code's clause (3) looks only at `div`
elements.  On `docClassySpan` the claim selects the classed `<span>` (text
`"X"`), but the code falls through to the whole document (text `"X Y"`). -/
theorem c3_counterexample_span_class :
    (elemsPre (pruneF docClassySpan)).find? isMainTag = none ∧
      (elemsPre (pruneF docClassySpan)).find? isArticleTag = none ∧
      claimClassSelect (pruneF docClassySpan) =
        some ⟨"span".data, [("class".data, "content".data)],
          Html.textCons "X".data Html.nil⟩ ∧
      getTextSep (Html.textCons "X".data Html.nil) = "X".data ∧
      extract_main_content docClassySpan = "X Y".data ∧
      "X Y".data ≠ "X".data := by
  refine ⟨by decide, by decide, by decide, by decide, by decide, by decide⟩

/-! ## Claim C4: link extraction -/

/-- The href contribution of one element: anchors with an href attribute
present (BeautifulSoup `href=True`). -/
def anchorAttr (td : TagData) : Option (List Char) :=
  if td.tag == "a".data then td.attrs.lookup "href".data else none

theorem anchorHrefs_eq_filterMap : ∀ f : Html,
    anchorHrefs f = (elemsPre f).filterMap anchorAttr := by
  intro f
  induction f with
  | nil => rfl
  | textCons s r ih => simp [anchorHrefs, elemsPre, ih]
  | elemCons t a c r ihc ihr =>
    simp only [anchorHrefs, elemsPre, List.filterMap_cons, List.filterMap_append,
      ihc, ihr, anchorAttr]
    by_cases ht : t == "a".data
    · simp only [ht, if_true]
      cases hl : a.lookup "href".data with
      | some v => simp [hl]
      | none => simp [hl]
    · simp [ht]

/-- C4 (amended): the link list is the first five hrefs of the anchors
that carry an href attribute (an empty `href` included, resolving to the
page URL), each resolved against the page URL, in document order; hence
its length is at most 5, and `/about` on `https://a.com/x` resolves to
`https://a.com/about`. -/
theorem c4_links_first_five (url : List Char) (doc : Html) :
    scrapeLinks url doc =
      (((elemsPre (pruneF doc)).filterMap anchorAttr).map (urljoin url)).take 5 ∧
      (scrapeLinks url doc).length ≤ 5 ∧
      urljoin "https://a.com/x".data "/about".data = "https://a.com/about".data := by
  refine ⟨?_, ?_, by decide⟩
  · rw [scrapeLinks, anchorHrefs_eq_filterMap]
  · rw [scrapeLinks]
    simp [List.length_take]

/-- Definition following the claim words: only anchors with a NON-EMPTY
href contribute, first five, resolved. -/
def claimLinks (url : List Char) (doc : Html) : List (List Char) :=
  (((elemsPre (pruneF doc)).filterMap
      (fun td =>
        match anchorAttr td with
        | some v => if v.isEmpty then none else some v
        | none => none)).map (urljoin url)).take 5

/-- An anchor with an href value followed by siblings. -/
def aChain (h : List Char) (r : Html) : Html :=
  Html.elemCons "a".data [("href".data, h)] Html.nil r

/-- A page with six anchors, the first with an empty href. -/
def docSixAnchors : Html :=
  aChain [] (aChain "h1".data (aChain "h2".data (aChain "h3".data
    (aChain "h4".data (aChain "h5".data Html.nil)))))

/-- C4 (counterexample): `find_all('a', href=True)` also matches anchors
whose href is empty, so on `docSixAnchors` the code's first five links
start with the page URL itself (resolution of the empty href) and drop
`h5`, while the claim's list is exactly the five non-empty hrefs
resolved. -/
theorem c4_counterexample_empty_href :
    scrapeLinks "https://a.com/x".data docSixAnchors =
      ["https://a.com/x".data, "https://a.com/h1".data, "https://a.com/h2".data,
       "https://a.com/h3".data, "https://a.com/h4".data] ∧
      claimLinks "https://a.com/x".data docSixAnchors =
        ["https://a.com/h1".data, "https://a.com/h2".data, "https://a.com/h3".data,
         "https://a.com/h4".data, "https://a.com/h5".data] ∧
      scrapeLinks "https://a.com/x".data docSixAnchors ≠
        claimLinks "https://a.com/x".data docSixAnchors ∧
      "https://a.com/h5".data ∈ claimLinks "https://a.com/x".data docSixAnchors ∧
      "https://a.com/h5".data ∉ scrapeLinks "https://a.com/x".data docSixAnchors := by
  refine ⟨by decide, by decide, by decide, by decide, by decide⟩

/-! ## Claims C8 and C10: prompt assembly -/

theorem foldl_mkBlock_eq (content : List (List Char × QRec)) :
    ∀ acc : List (List Char),
      content.foldl
        (fun acc p =>
          match mkBlock p.1 p.2 with
          | some b => acc ++ [b]
          | none => acc) acc =
      acc ++ content.filterMap (fun p => mkBlock p.1 p.2) := by
  induction content with
  | nil => intro acc; simp
  | cons x xs ih =>
    intro acc
    simp only [List.foldl_cons, List.filterMap_cons]
    cases hx : mkBlock x.1 x.2 with
    | some b => simp [hx, ih, List.append_assoc]
    | none => simp [hx, ih]

theorem contextParts_eq_filterMap (content : List (List Char × QRec)) :
    contextParts content = content.filterMap (fun p => mkBlock p.1 p.2) := by
  rw [contextParts, foldl_mkBlock_eq]
  simp

/-- C8: each record with both `title` and `content` fields contributes one
block carrying the source URL, the title and the content truncated to its
first 1500 characters; records lacking either field contribute nothing;
the blocks are joined by `---` surrounded by blank lines and the joined
context is embedded in the prompt. -/
theorem c8_prompt_blocks (content : List (List Char × QRec))
    (q url t c : List Char) (o : Option (List Char)) :
    mkBlock url ⟨some t, some c⟩ = some (blockStr url t c) ∧
      mkBlock url ⟨none, o⟩ = none ∧
      mkBlock url ⟨o, none⟩ = none ∧
      url <:+: blockStr url t c ∧
      t <:+: blockStr url t c ∧
      c.take 1500 <:+: blockStr url t c ∧
      buildContext content =
        List.intercalate "\n\n---\n\n".data
          (content.filterMap (fun p => mkBlock p.1 p.2)) ∧
      buildContext content <:+: buildPrompt content q := by
  refine ⟨rfl, rfl, ?_, ?_, ?_, ?_, ?_, ?_⟩
  · cases o <;> rfl
  · exact ⟨"\nSource: ".data,
      "\nTitle: ".data ++ t ++ "\nContent:\n".data ++ c.take 1500 ++ strayText ++
        "\n                ".data,
      by simp [blockStr, List.append_assoc]⟩
  · exact ⟨"\nSource: ".data ++ url ++ "\nTitle: ".data,
      "\nContent:\n".data ++ c.take 1500 ++ strayText ++ "\n                ".data,
      by simp [blockStr, List.append_assoc]⟩
  · exact ⟨"\nSource: ".data ++ url ++ "\nTitle: ".data ++ t ++ "\nContent:\n".data,
      strayText ++ "\n                ".data,
      by simp [blockStr, List.append_assoc]⟩
  · rw [buildContext, contextParts_eq_filterMap]
    rfl
  · exact ⟨promptHead ++ q ++ promptMid, promptTail,
      by simp [buildPrompt, List.append_assoc]⟩

/-- C10: every emitted block carries, directly after the truncated content
and on the same line (the stray text holds no newline), the literal text
`  # Limit content length per URL` — the f-string template artifact of
app.py line 149. -/
theorem c10_stray_template_text (url t c : List Char) :
    mkBlock url ⟨some t, some c⟩ =
      some (("\nSource: ".data ++ url ++ "\nTitle: ".data ++ t ++
          "\nContent:\n".data) ++ c.take 1500 ++ strayText ++
        "\n                ".data) ∧
      strayText = "  # Limit content length per URL".data ∧
      strayText.all (fun ch => ch != '\n') = true ∧
      strayText <:+: blockStr url t c := by
  refine ⟨?_, rfl, by decide, ?_⟩
  · simp [mkBlock, blockStr, List.append_assoc]
  · exact ⟨"\nSource: ".data ++ url ++ "\nTitle: ".data ++ t ++ "\nContent:\n".data ++
      c.take 1500, "\n                ".data,
      by simp [blockStr, List.append_assoc]⟩

/-! ## Claim C9: answer post-processing scenario -/

def scenarioIn : List Char :=
  ("1. Hello\n\nWorld says \"hi\" and\n- a bullet").data

def scenarioOut : List Char :=
  ("<h3>1. Hello</h3><br><br>World says <b>\"hi\"</b> and\nâ€¢ a bullet").data

/-- C9 (evaluation at the failing input): rewrites (1)-(3) produce the
heading, the double line break before `World` and the bolded quote as the
claim states, but rewrite (4) replaces `- ` with the mojibake sequence
`â€¢ ` (U+00E2, U+20AC, U+00A2 — the bullet U+2022 double-encoded), so no
actual bullet glyph occurs in the output. -/
theorem c9_postprocessor_scenario :
    postProcess scenarioIn = scenarioOut ∧
      "<h3>1. Hello</h3>".data <:+: postProcess scenarioIn ∧
      "<br><br>World".data <:+: postProcess scenarioIn ∧
      "<b>\"hi\"</b>".data <:+: postProcess scenarioIn ∧
      "\nâ€¢ a bullet".data <:+: postProcess scenarioIn ∧
      bulletRepl = ['â', '€', '¢', ' '] ∧
      '•' ∉ postProcess scenarioIn := by
  refine ⟨by decide, by decide, by decide, by decide, by decide, rfl, by decide⟩

/-! ## Claim C5: ask-question validation short-circuits the model call -/

/-- C5: an empty content map or a blank question yields HTTP 400 and the
model oracle is never consulted (the invocation flag is `false`). -/
theorem c5_validation_before_model (model : List Char → Option (List Char))
    (content : List (List Char × QRec)) (question : List Char) :
    (content = [] →
        ask_question model content question =
          (.err 400 "No content provided".data, false)) ∧
      (content ≠ [] → pstrip question = [] →
        ask_question model content question =
          (.err 400 "No question provided".data, false)) := by
  constructor
  · intro h
    subst h
    rfl
  · intro h hq
    simp [ask_question, List.isEmpty_iff, h, hq]

/-- C5 witness. -/
theorem c5_validation_witness :
    ask_question (fun _ => none) [] "q".data =
        (.err 400 "No content provided".data, false) ∧
      ask_question (fun _ => none) [("u".data, ⟨some [], some []⟩)] "  ".data =
        (.err 400 "No question provided".data, false) :=
  ⟨(c5_validation_before_model (fun _ => none) [] "q".data).1 rfl,
   (c5_validation_before_model (fun _ => none)
      [("u".data, ⟨some [], some []⟩)] "  ".data).2 (by decide) (by decide)⟩

/-! ## Claim C1: fail-fast batch -/

theorem fetchLoop_fail_fast (net : List Char → Except (List Char) Html)
    (u e : List Char) (post : List (List Char))
    (hu : (pstrip u).isEmpty = false)
    (he : scrape_url net u = .error e) :
    ∀ (pre : List (List Char)) (acc : List (List Char × PageRecord)),
      (∀ v ∈ pre, (pstrip v).isEmpty = false → ∃ r, scrape_url net v = .ok r) →
      fetchLoop net (pre ++ u :: post) acc =
        (.err 400 e, (pre.filter (fun v => !(pstrip v).isEmpty)) ++ [u]) := by
  intro pre
  induction pre with
  | nil =>
    intro acc _
    simp [fetchLoop, hu, he]
  | cons v rest ih =>
    intro acc hall
    by_cases hv : (pstrip v).isEmpty
    · have := ih acc (fun w hw hwe => hall w (List.mem_cons_of_mem _ hw) hwe)
      simp [fetchLoop, hv, this, List.filter_cons]
    · obtain ⟨r, hr⟩ := hall v (List.mem_cons_self v rest) (by simpa using hv)
      have := ih (dictInsert acc v r)
        (fun w hw hwe => hall w (List.mem_cons_of_mem _ hw) hwe)
      simp [fetchLoop, hv, hr, this, List.filter_cons]

/-- C1: if every non-blank URL before `u` scrapes successfully, `u` is
non-blank and its scrape reports an error `e`, then the whole batch
answers HTTP 400 with exactly that message — no content map — and the
URLs actually scraped are the non-blank ones before `u` and `u` itself:
nothing after `u` is processed. -/
theorem c1_fail_fast_batch (net : List Char → Except (List Char) Html)
    (pre post : List (List Char)) (u e : List Char)
    (hpre : ∀ v ∈ pre, (pstrip v).isEmpty = false → ∃ r, scrape_url net v = .ok r)
    (hu : (pstrip u).isEmpty = false)
    (he : scrape_url net u = .error e) :
    fetch_content net (pre ++ u :: post) =
      (.err 400 e, (pre.filter (fun v => !(pstrip v).isEmpty)) ++ [u]) := by
  have hne : (pre ++ u :: post).isEmpty = false := by
    cases pre <;> simp
  simp only [fetch_content, hne, Bool.false_eq_true, if_false]
  exact fetchLoop_fail_fast net u e post hu he pre [] hpre

/-- Network oracle for the witnesses: `good` resolves, all else fails. -/
def netW : List Char → Except (List Char) Html := fun u =>
  if u == "good".data then .ok (Html.textCons "T".data Html.nil)
  else .error "boom".data

/-- C1 witness. -/
theorem c1_fail_fast_witness :
    fetch_content netW ["good".data, "bad".data, "after".data] =
      (.err 400 "Error scraping bad: boom".data, ["good".data, "bad".data]) := by
  have h := c1_fail_fast_batch netW ["good".data] ["after".data] "bad".data
      "Error scraping bad: boom".data
      (fun v hv _ => by
        have hveq : v = "good".data := by simpa using hv
        subst hveq
        exact ⟨_, rfl⟩)
      (by decide) rfl
  simpa using h

/-! ## Claim C7: URL-list validation and blank skipping -/

theorem fetchLoop_all_blank (net : List Char → Except (List Char) Html) :
    ∀ (urls : List (List Char)) (acc : List (List Char × PageRecord)),
      (∀ u ∈ urls, (pstrip u).isEmpty = true) →
      fetchLoop net urls acc = (.ok acc, []) := by
  intro urls
  induction urls with
  | nil => intro acc _; rfl
  | cons u rest ih =>
    intro acc hall
    have hu := hall u (List.mem_cons_self u rest)
    simp [fetchLoop, hu, ih acc (fun w hw => hall w (List.mem_cons_of_mem _ hw))]

theorem scrape_url_error_shape (net : List Char → Except (List Char) Html)
    (u : List Char) {e : List Char} (h : scrape_url net u = .error e) :
    ∃ e0, e = "Error scraping ".data ++ u ++ ": ".data ++ e0 := by
  rw [scrape_url] at h
  cases hn : net u with
  | error e0 =>
    rw [hn] at h
    exact ⟨e0, (Except.error.inj h).symm⟩
  | ok doc =>
    rw [hn] at h
    simp at h

theorem fetchLoop_not_noUrls (net : List Char → Except (List Char) Html) :
    ∀ (urls : List (List Char)) (acc : List (List Char × PageRecord)),
      (fetchLoop net urls acc).1 ≠ FetchResp.err 400 "No URLs provided".data := by
  intro urls
  induction urls with
  | nil => intro acc h; simp [fetchLoop] at h
  | cons u rest ih =>
    intro acc
    by_cases hu : (pstrip u).isEmpty
    · simpa [fetchLoop, hu] using ih acc
    · cases hs : scrape_url net u with
      | error e =>
        obtain ⟨e0, he0⟩ := scrape_url_error_shape net u hs
        subst he0
        simp [fetchLoop, hu, hs]
      | ok r =>
        simpa [fetchLoop, hu, hs] using ih (dictInsert acc u r)

/-- C7: the "No URLs provided" validation error (HTTP 400) occurs exactly
for the empty URL list; blank URLs are skipped without any scrape, so a
non-empty list of only-blank URLs yields an empty content map and an
empty scrape trace. -/
theorem c7_url_validation (net : List Char → Except (List Char) Html)
    (urls : List (List Char)) :
    fetch_content net ([] : List (List Char)) =
        (.err 400 "No URLs provided".data, []) ∧
      (urls ≠ [] → (∀ u ∈ urls, (pstrip u).isEmpty = true) →
        fetch_content net urls = (.ok [], [])) ∧
      ((fetch_content net urls).1 = .err 400 "No URLs provided".data ↔
        urls = []) := by
  refine ⟨rfl, ?_, ?_, ?_⟩
  · intro hne hall
    have h0 : urls.isEmpty = false := by simpa [List.isEmpty_iff] using hne
    simp [fetch_content, h0, fetchLoop_all_blank net urls [] hall]
  · intro h
    by_contra hne
    have h0 : urls.isEmpty = false := by simpa [List.isEmpty_iff] using hne
    exact fetchLoop_not_noUrls net urls []
      (by simpa [fetch_content, h0] using h)
  · intro h
    subst h
    rfl

/-- C7 witness. -/
theorem c7_url_validation_witness :
    fetch_content netW ([] : List (List Char)) =
        (.err 400 "No URLs provided".data, []) ∧
      fetch_content netW [" ".data] = (.ok [], []) ∧
      ((fetch_content netW [" ".data]).1 = .err 400 "No URLs provided".data ↔
        [" ".data] = ([] : List (List Char))) :=
  ⟨(c7_url_validation netW []).1,
   (c7_url_validation netW [" ".data]).2.1 (by decide) (by decide),
   (c7_url_validation netW [" ".data]).2.2⟩
